import Mathlib

/-!
Verification development for the indexable-composition core of an SSD
object-detection model (`models.py`).

The embedding mirrors the source:

* `Layer` — an opaque named callable unit (`layer.name`, `layer(tensor)`).
* `get_layer_index` — `Network_Indexer.get_layer_index` (lines 41-60).
* `get_item` — `Network_Indexer.get_item` (lines 24-39), with Python list
  indexing and slicing semantics made explicit (`pyGet`, `pySlice`).
* `indexable_call` — `Network_Indexer.indexable_call` (lines 62-90); the
  loop is instrumented with the list of invoked layer indices so that
  "layer at position p was (not) invoked" is observable.
* `Powered_Sequential.call` / `Powered_Model.call` (lines 111-113, 135-137).
* `BaseNet_init` — the architecture dispatch of `BaseNet.__init__`
  (lines 147-181); the VGG16 assembly itself is external library work and
  is abstracted as a function argument invoked only in the accepted branch.
* `DetectorNet` — `DetectorNet.call` (lines 216-226).

Python exceptions raised by the source are modelled by `Err`.
-/

namespace SSD

/-- Exception kinds raised by the source: `IndexError`, `ValueError`,
`TypeError`. -/
inductive Err where
  | indexError
  | valueError
  | typeError
deriving DecidableEq, Repr

/-- A layer: an opaque named callable unit of computation, externally
provided (source: duck-typed Keras layers with `.name` and `__call__`). -/
structure Layer (α : Type) where
  name : String
  call : α → α

/-- A key accepted by `get_layer_index`: a Python `int` or `str`. -/
inductive LKey where
  | int (k : Int)
  | str (s : String)

/-- A slice bound in `get_item`: Python `None`, an `int`, or a `str`. -/
inductive SKey where
  | omitted
  | int (k : Int)
  | str (s : String)

/-- A key accepted by `get_item`: `int`, `str` or `slice`. -/
inductive GKey where
  | int (k : Int)
  | str (s : String)
  | slice (start stop : SKey)

/-- Result of `get_item`: a bare layer (int/str key), a raw Python list
(slice whose result has at most one element), or a `Sequential` wrapper
(slice whose result has more than one element). -/
inductive Item (α : Type) where
  | layer (L : Layer α)
  | layerList (ls : List (Layer α))
  | seq (ls : List (Layer α))

/-- The scanning loop of `get_layer_index` for a string key (lines 53-55):
`index` starts as `None` and is overwritten at every position whose layer
name equals the key, so the last match is kept. `l` is the position of the
head of the remaining list. -/
def scanNameAux (s : String) : List (Layer α) → Nat → Option Nat → Option Nat
  | [], _, acc => acc
  | L :: rest, l, acc => scanNameAux s rest (l + 1) (if L.name = s then some l else acc)

/-- `Network_Indexer.get_layer_index` (lines 41-60).

Integer key: `key >= len(layers)` raises `IndexError`; otherwise the
assignment `index = len(layers) + key` performed when `key < 0` (line 50)
is immediately overwritten by the unconditional `index = key` (line 51),
so the returned index is always the raw key. String key: exhaustive scan,
last match wins, `ValueError` when no layer has the given name. -/
def get_layer_index (layers : List (Layer α)) : LKey → Except Err Int
  | .int k =>
    if (layers.length : Int) ≤ k then .error .indexError
    else .ok k
  | .str s =>
    match scanNameAux s layers 0 Option.none with
    | some i => .ok (i : Int)
    | Option.none => .error .valueError

/-- Python list element access `xs[i]`: negative indices count from the
end, out-of-range raises `IndexError`. -/
def pyGet (xs : List β) (i : Int) : Except Err β :=
  let j := if i < 0 then (xs.length : Int) + i else i
  if h : 0 ≤ j ∧ j < (xs.length : Int) then
    .ok (xs.get ⟨j.toNat, by omega⟩)
  else .error .indexError

/-- Normalisation of one bound of a Python slice `xs[a:b]` (step 1):
a missing bound takes the default, a negative bound is shifted by the
length and clamped below at 0, a non-negative bound is clamped above at
the length. -/
def sliceBound (n : Int) (v : Option Int) (dflt : Int) : Int :=
  match v with
  | Option.none => dflt
  | some i => if i < 0 then max (n + i) 0 else min i n

/-- Python list slicing `xs[a:b]` with step 1. -/
def pySlice (xs : List β) (start stop : Option Int) : List β :=
  let n : Int := xs.length
  let a := sliceBound n start 0
  let b := sliceBound n stop n
  (xs.drop a.toNat).take (b - a).toNat

/-- Resolution of the `start` bound of a slice key in `get_item`
(lines 30-31): a string is resolved through `get_layer_index`, anything
else is passed to Python slicing unchanged. -/
def resolveStart (layers : List (Layer α)) : SKey → Except Err (Option Int)
  | .omitted => .ok Option.none
  | .int k => .ok (some k)
  | .str s => (get_layer_index layers (.str s)).map (fun i => some i)

/-- Resolution of the `stop` bound of a slice key in `get_item`
(lines 32-33): a string is resolved through `get_layer_index` and then
incremented by one. -/
def resolveStop (layers : List (Layer α)) : SKey → Except Err (Option Int)
  | .omitted => .ok Option.none
  | .int k => .ok (some k)
  | .str s => (get_layer_index layers (.str s)).map (fun i => some (i + 1))

/-- The sub-sequence selected by a slice key (lines 29-34). -/
def resolveSlice (layers : List (Layer α)) (st sp : SKey) : Except Err (List (Layer α)) := do
  let a ← resolveStart layers st
  let b ← resolveStop layers sp
  pure (pySlice layers a b)

/-- `Network_Indexer.get_item` (lines 24-39). -/
def get_item (layers : List (Layer α)) : GKey → Except Err (Item α)
  | .int k => do
    let i ← get_layer_index layers (.int k)
    let L ← pyGet layers i
    pure (.layer L)
  | .str s => do
    let i ← get_layer_index layers (.str s)
    let L ← pyGet layers i
    pure (.layer L)
  | .slice st sp => do
    let item ← resolveSlice layers st sp
    if 1 < item.length then pure (.seq item) else pure (.layerList item)

/-- Loop state of `indexable_call`: the running `inputs`, the last
`outputs` (initially `None`), whether the loop has hit `break`, and — as
instrumentation — the indices of the layers invoked so far, in order. -/
structure ICState (α : Type) where
  inputs : α
  outputs : Option α
  done : Bool
  trace : List Nat

/-- One iteration of the loop of `indexable_call` (lines 83-89): after a
`break` nothing further happens; an index below `start` is skipped via
`continue`; otherwise the layer at the index is invoked, and the loop
either breaks (index equals `last`) or feeds the output forward. -/
def icStep (layers : List (Layer α)) (start last : Int) (acc : Except Err (ICState α))
    (l : Nat) : Except Err (ICState α) :=
  match acc with
  | .error e => .error e
  | .ok s =>
    if s.done then .ok s
    else if (l : Int) < start then .ok s
    else
      match layers.get? l with
      | Option.none => .error .indexError
      | some L =>
        if (l : Int) = last then
          .ok { s with outputs := some (L.call s.inputs), done := true, trace := s.trace ++ [l] }
        else
          .ok { inputs := L.call s.inputs, outputs := some (L.call s.inputs),
                done := false, trace := s.trace ++ [l] }

/-- The `for l in range(last+1)` loop of `indexable_call` (lines 83-89). -/
def runLoop (layers : List (Layer α)) (inputs : α) (start last : Int) :
    Except Err (ICState α) :=
  (List.range (last + 1).toNat).foldl (icStep layers start last)
    (.ok ⟨inputs, Option.none, false, []⟩)

/-- `Network_Indexer.indexable_call` (lines 62-90), instrumented with the
list of invoked layer indices: the result pairs the returned `outputs`
(`None` when no layer was executed) with that trace. `start` defaults to
0 and `last` to `len(layers) - 1`; explicit keys go through
`get_layer_index`. -/
def indexable_call (layers : List (Layer α)) (inputs : α)
    (start_layer last_layer : Option LKey) : Except Err (Option α × List Nat) := do
  let start ← match start_layer with
    | Option.none => pure (0 : Int)
    | some k => get_layer_index layers k
  let last ← match last_layer with
    | Option.none => pure ((layers.length : Int) - 1)
    | some k => get_layer_index layers k
  let s ← runLoop layers inputs start last
  pure (s.outputs, s.trace)

/-- `Powered_Sequential` (lines 93-113): a sequential model owning its
layer list. -/
structure Powered_Sequential (α : Type) where
  layers : List (Layer α)

/-- `Powered_Sequential.call` (lines 111-113): delegates to
`indexable_call`; the `training` flag is accepted and ignored. -/
def Powered_Sequential.call (m : Powered_Sequential α) (inputs : α) (training : Bool)
    (start_layer last_layer : Option LKey) : Except Err (Option α × List Nat) :=
  indexable_call m.layers inputs start_layer last_layer

/-- `Powered_Model` (lines 116-137): a graph model exposing its flattened
layer list. -/
structure Powered_Model (α : Type) where
  layers : List (Layer α)

/-- `Powered_Model.call` (lines 135-137): delegates to `indexable_call`;
the `training` flag is accepted and ignored. -/
def Powered_Model.call (m : Powered_Model α) (inputs : α) (training : Bool)
    (start_layer last_layer : Option LKey) : Except Err (Option α × List Nat) :=
  indexable_call m.layers inputs start_layer last_layer

/-- The recognised backbone aliases of `BaseNet.__init__` (line 149). -/
def BaseNet_recognized : List String := ["VGG16", "VGG-16", "VGG_16"]

/-- `BaseNet.__init__` (lines 147-181): if the architecture name is
recognised, the VGG16-based layer assembly (steps 1-4 of the source,
external library work: pretrained instantiation and weight resampling) is
run and the model is built from its layers; otherwise `TypeError` is
raised at once and nothing is assembled. The assembly is abstracted as
the function `assemble`, invoked only in the accepted branch. -/
def BaseNet_init (architecture : String) (assemble : Unit → List (Layer α)) :
    Except Err (Powered_Sequential α) :=
  if architecture ∈ BaseNet_recognized then .ok ⟨assemble ()⟩
  else .error .typeError

/-- `DetectorNet` (lines 195-226): holds the parallel lists of input
stages and predictors. -/
structure DetectorNet (α : Type) where
  input_layers : List (Layer α)
  predictors : List (Layer α)

/-- Modelled from the spec: the flattened `OrderedLayerSequence` exposed
by the graph model (`self.layers`) is the concatenation
`input_stages ++ predictor_layers` (spec section 3, BranchSpec); the
attribute itself is supplied by the external framework. -/
def DetectorNet.layers (d : DetectorNet α) : List (Layer α) :=
  d.input_layers ++ d.predictors

/-- One iteration of the branch loop of `DetectorNet.call` (lines 218-225):
branch `i` feeds `inputs[i]` to `self.layers[i]` and runs the flattened
sequence with `start_layer = last_layer = i + len(input_layers)` on the
intermediate, appending the result (output paired with the
instrumentation trace of `indexable_call`). -/
def detStep (d : DetectorNet α) (inputs : List α)
    (acc : Except Err (List (Option α × List Nat))) (i : Nat) :
    Except Err (List (Option α × List Nat)) := do
  let outs ← acc
  let Li ← pyGet d.layers (i : Int)
  let xi ← pyGet inputs (i : Int)
  let in_predict := Li.call xi
  let out_layer : Int := (i : Int) + (d.input_layers.length : Int)
  let r ← indexable_call d.layers in_predict (some (.int out_layer)) (some (.int out_layer))
  pure (outs ++ [r])

/-- `DetectorNet.call` (lines 216-226): iterate `detStep` over the branch
indices `0 .. len(inputs) - 1`, collecting one output per branch in
branch order. -/
def DetectorNet.call (d : DetectorNet α) (inputs : List α) (training : Bool) :
    Except Err (List (Option α × List Nat)) :=
  (List.range inputs.length).foldl (detStep d inputs) (.ok [])

/-- Spec-side description of one branch of `MultiBranchDetector.call`
(spec section 4.6): branch `i` produces `predictor_i(input_stage_i(x_i))`,
invoking exactly the single layer at position `len(input_stages) + i` of
the flattened sequence. -/
def branchOut (s p : List (Layer α)) (x : List α) (i : Nat) : Option α × List Nat :=
  match x.get? i, s.get? i, p.get? i with
  | some xi, some si, some pi => (some (pi.call (si.call xi)), [s.length + i])
  | _, _, _ => (Option.none, [])

/-- Spec-side predicate (spec section 4.1): position `j` holds a layer
named `s` and no later position does — "the last matching position wins". -/
def isLastMatch (layers : List (Layer α)) (s : String) (j : Nat) : Prop :=
  (∃ hj : j < layers.length, (layers.get ⟨j, hj⟩).name = s) ∧
  ∀ (i : Nat) (hi : i < layers.length), j < i → (layers.get ⟨i, hi⟩).name ≠ s

/-- A concrete three-layer sequence used for witnesses. -/
def demoLayers : List (Layer Nat) :=
  [⟨"a", fun v => v + 1⟩, ⟨"b", fun v => v * 2⟩, ⟨"c", fun v => v + 3⟩]

/-- Spec-side chaining: feed `x` through the `m` layers starting at
position `a`, in ascending order. -/
def chainApply (layers : List (Layer α)) (a m : Nat) (x : α) : α :=
  ((layers.drop a).take m).foldl (fun v L => L.call v) x

/-! ### Helper lemmas about the name scan -/

theorem scanNameAux_no_match (s : String) (ls : List (Layer α))
    (h : ∀ L ∈ ls, L.name ≠ s) :
    ∀ (k : Nat) (acc : Option Nat), scanNameAux s ls k acc = acc := by
  induction ls with
  | nil => intro k acc; rfl
  | cons L rest ih =>
    intro k acc
    have hL : L.name ≠ s := h L (List.mem_cons_self L rest)
    have hunf : scanNameAux s (L :: rest) k acc =
        scanNameAux s rest (k + 1) (if L.name = s then some k else acc) := rfl
    rw [hunf, if_neg hL]
    exact ih (fun X hX => h X (List.mem_cons_of_mem L hX)) (k + 1) acc

theorem scanNameAux_last_match (s : String) :
    ∀ (ls : List (Layer α)) (j : Nat), isLastMatch ls s j →
      ∀ (k : Nat) (acc : Option Nat), scanNameAux s ls k acc = some (k + j) := by
  intro ls
  induction ls with
  | nil =>
    intro j hj
    obtain ⟨⟨hlt, _⟩, _⟩ := hj
    simp at hlt
  | cons L rest ih =>
    intro j hj k acc
    obtain ⟨⟨hjlt, hname⟩, hafter⟩ := hj
    have hunf : scanNameAux s (L :: rest) k acc =
        scanNameAux s rest (k + 1) (if L.name = s then some k else acc) := rfl
    rw [hunf]
    cases j with
    | zero =>
      have hL : L.name = s := hname
      rw [if_pos hL]
      have hrest : ∀ X ∈ rest, X.name ≠ s := by
        intro X hmem hc
        obtain ⟨⟨i, hilt⟩, hget⟩ := List.mem_iff_get.mp hmem
        have hi1 : i + 1 < (L :: rest).length := by
          simp [List.length_cons]
          omega
        have : ((L :: rest).get ⟨i + 1, hi1⟩).name ≠ s := hafter (i + 1) hi1 (Nat.succ_pos i)
        exact this (by rw [show (L :: rest).get ⟨i + 1, hi1⟩ = rest.get ⟨i, hilt⟩ from rfl, hget]; exact hc)
      rw [scanNameAux_no_match s rest hrest (k + 1) (some k)]
      simp
    | succ j =>
      have hjlt2 : j < rest.length := by
        simp [List.length_cons] at hjlt
        omega
      have hrest : isLastMatch rest s j := by
        refine ⟨⟨hjlt2, hname⟩, ?_⟩
        intro i hi hji
        have hi1 : i + 1 < (L :: rest).length := by
          simp [List.length_cons]
          omega
        exact hafter (i + 1) hi1 (by omega)
      rw [ih j hrest (k + 1) (if L.name = s then some k else acc)]
      congr 1
      omega

theorem exists_last_match (s : String) :
    ∀ (ls : List (Layer α)), (∃ L ∈ ls, L.name = s) → ∃ j, isLastMatch ls s j := by
  intro ls
  induction ls with
  | nil => intro h; simp at h
  | cons L rest ih =>
    intro h
    by_cases hrest : ∃ X ∈ rest, X.name = s
    · obtain ⟨j, ⟨hjlt, hget⟩, hafter⟩ := ih hrest
      have hj1 : j + 1 < (L :: rest).length := by
        simp [List.length_cons]
        omega
      refine ⟨j + 1, ⟨hj1, hget⟩, ?_⟩
      intro i hi hji
      cases i with
      | zero => omega
      | succ i =>
        have hi2 : i < rest.length := by
          simp [List.length_cons] at hi
          omega
        exact hafter i hi2 (by omega)
    · have hL : L.name = s := by
        obtain ⟨X, hmem, hname⟩ := h
        rcases List.mem_cons.mp hmem with h1 | h2
        · rw [← h1]; exact hname
        · exact absurd ⟨X, h2, hname⟩ hrest
      refine ⟨0, ⟨by simp, hL⟩, ?_⟩
      intro i hi h0i
      cases i with
      | zero => omega
      | succ i =>
        intro hc
        have hi2 : i < rest.length := by
          simp [List.length_cons] at hi
          omega
        exact hrest ⟨rest.get ⟨i, hi2⟩, List.get_mem rest i hi2, hc⟩

theorem get_layer_index_str_error (layers : List (Layer α)) (s : String) :
    get_layer_index layers (.str s) = .error .valueError ↔ ∀ L ∈ layers, L.name ≠ s := by
  constructor
  · intro h L hmem hname
    obtain ⟨j, hj⟩ := exists_last_match s layers ⟨L, hmem, hname⟩
    have hscan := scanNameAux_last_match s layers j hj 0 Option.none
    simp [get_layer_index, hscan] at h
  · intro h
    have hscan := scanNameAux_no_match s layers h 0 Option.none
    simp [get_layer_index, hscan]

theorem get_layer_index_str_ok (layers : List (Layer α)) (s : String) (j : Nat) :
    get_layer_index layers (.str s) = .ok (j : Int) ↔ isLastMatch layers s j := by
  constructor
  · intro h
    by_cases hm : ∃ L ∈ layers, L.name = s
    · obtain ⟨j0, hj0⟩ := exists_last_match s layers hm
      have hscan := scanNameAux_last_match s layers j0 hj0 0 Option.none
      simp [get_layer_index, hscan] at h
      have : j0 = j := by exact_mod_cast h
      rw [← this]
      exact hj0
    · have hno : ∀ L ∈ layers, L.name ≠ s := by
        intro L hmem hc
        exact hm ⟨L, hmem, hc⟩
      have hscan := scanNameAux_no_match s layers hno 0 Option.none
      simp [get_layer_index, hscan] at h
  · intro h
    have hscan := scanNameAux_last_match s layers j h 0 Option.none
    simp [get_layer_index, hscan]

/-! ### Helper lemmas about the execution loop -/

theorem chainApply_zero (layers : List (Layer α)) (a : Nat) (x : α) :
    chainApply layers a 0 x = x := rfl

theorem chainApply_succ_left (layers : List (Layer α)) (a m : Nat) (x : α)
    (h : a < layers.length) :
    chainApply layers a (m + 1) x =
      chainApply layers (a + 1) m ((layers.get ⟨a, h⟩).call x) := by
  unfold chainApply
  rw [List.drop_eq_getElem_cons h]
  rfl

theorem chainApply_succ_right (layers : List (Layer α)) (a m j : Nat) (x : α)
    (hj : j = a + m) (hjl : j < layers.length) :
    chainApply layers a (m + 1) x = (layers.get ⟨j, hjl⟩).call (chainApply layers a m x) := by
  subst hj
  unfold chainApply
  rw [List.take_succ, List.getElem?_drop, List.getElem?_eq_getElem hjl, List.foldl_append]
  rfl

theorem foldl_icStep_skip (layers : List (Layer α)) (k1 k2 : Nat) :
    ∀ (m a : Nat) (s : ICState α), s.done = false → a + m ≤ k1 →
      (List.range' a m).foldl (icStep layers (k1 : Int) (k2 : Int)) (.ok s) = .ok s := by
  intro m
  induction m with
  | zero => intro a s _ _; rfl
  | succ m ih =>
    intro a s hdone hle
    have ha : ((a : Int) < (k1 : Int)) := by exact_mod_cast (by omega : a < k1)
    rw [List.range'_succ, List.foldl_cons]
    have hstep : icStep layers (k1 : Int) (k2 : Int) (.ok s) a = .ok s := by
      simp [icStep, hdone, ha]
    rw [hstep]
    exact ih (a + 1) s hdone (by omega)

theorem foldl_icStep_chain (layers : List (Layer α)) (k1 k2 : Nat) :
    ∀ (m a : Nat) (x : α) (o : Option α) (t : List Nat),
      k1 ≤ a → a + m ≤ k2 → k2 < layers.length →
      (List.range' a m).foldl (icStep layers (k1 : Int) (k2 : Int)) (.ok ⟨x, o, false, t⟩) =
        .ok ⟨chainApply layers a m x,
             (match m with | 0 => o | _ + 1 => some (chainApply layers a m x)),
             false, t ++ List.range' a m⟩ := by
  intro m
  induction m with
  | zero => intro a x o t _ _ _; simp [chainApply_zero]
  | succ m ih =>
    intro a x o t h1 h2 h3
    have hal : a < layers.length := by omega
    have hnk1 : ¬ ((a : Int) < (k1 : Int)) := by
      intro hc
      exact absurd (by exact_mod_cast hc : a < k1) (by omega)
    have hnk2 : ¬ ((a : Int) = (k2 : Int)) := by
      intro hc
      exact absurd (by exact_mod_cast hc : a = k2) (by omega)
    rw [List.range'_succ, List.foldl_cons]
    have hstep : icStep layers (k1 : Int) (k2 : Int)
        (.ok ⟨x, o, false, t⟩) a =
        .ok ⟨(layers.get ⟨a, hal⟩).call x, some ((layers.get ⟨a, hal⟩).call x),
             false, t ++ [a]⟩ := by
      simp [icStep, hnk1, hnk2, List.getElem?_eq_getElem hal]
    rw [hstep, ih (a + 1) _ _ _ (by omega) (by omega) h3]
    have hchain : chainApply layers (a + 1) m ((layers.get ⟨a, hal⟩).call x) =
        chainApply layers a (m + 1) x := (chainApply_succ_left layers a m x hal).symm
    cases m with
    | zero =>
      have h0 : (layers.get ⟨a, hal⟩).call x = chainApply layers a (0 + 1) x := by
        rw [← hchain]; rfl
      rw [h0]
      simp [List.range'_succ]
      rfl
    | succ m =>
      simp only [hchain]
      simp [List.range'_succ]

theorem icStep_break (layers : List (Layer α)) (k1 k2 : Nat) (hk : k1 ≤ k2)
    (h : k2 < layers.length) (s : ICState α) (hdone : s.done = false) :
    icStep layers (k1 : Int) (k2 : Int) (.ok s) k2 =
      .ok { s with outputs := some ((layers.get ⟨k2, h⟩).call s.inputs),
                   done := true, trace := s.trace ++ [k2] } := by
  have hnk1 : ¬ ((k2 : Int) < (k1 : Int)) := by
    intro hc
    exact absurd (by exact_mod_cast hc : k2 < k1) (by omega)
  simp [icStep, hdone, hnk1, List.getElem?_eq_getElem h]

/-- Characterisation of `indexable_call` with resolved integer positions
`k1 ≤ k2 < length`: the output chains the input through layers
`k1 .. k2` and exactly those indices are invoked, in ascending order. -/
theorem indexable_call_nat (layers : List (Layer α)) (x : α) (k1 k2 : Nat)
    (h1 : k1 ≤ k2) (h2 : k2 < layers.length) :
    indexable_call layers x (some (.int (k1 : Int))) (some (.int (k2 : Int))) =
      .ok (some (chainApply layers k1 (k2 - k1 + 1) x), List.range' k1 (k2 - k1 + 1)) := by
  have hr1 : get_layer_index layers (.int (k1 : Int)) = .ok (k1 : Int) := by
    have : ¬ ((layers.length : Int) ≤ (k1 : Int)) := by
      intro hc
      exact absurd (by exact_mod_cast hc : layers.length ≤ k1) (by omega)
    simp [get_layer_index, this]
  have hr2 : get_layer_index layers (.int (k2 : Int)) = .ok (k2 : Int) := by
    have : ¬ ((layers.length : Int) ≤ (k2 : Int)) := by
      intro hc
      exact absurd (by exact_mod_cast hc : layers.length ≤ k2) (by omega)
    simp [get_layer_index, this]
  have hrun : runLoop layers x (k1 : Int) (k2 : Int) =
      .ok ⟨chainApply layers k1 (k2 - k1) x,
           some (chainApply layers k1 (k2 - k1 + 1) x), true,
           List.range' k1 (k2 - k1 + 1)⟩ := by
    unfold runLoop
    have htn : ((k2 : Int) + 1).toNat = k2 + 1 := by omega
    rw [htn, List.range_eq_range']
    have hsplit : List.range' 0 (k2 + 1) =
        List.range' 0 k1 ++ (List.range' k1 (k2 - k1) ++ [k2]) := by
      have h3 := List.range'_append 0 k1 (k2 + 1 - k1) 1
      simp only [Nat.zero_add, Nat.one_mul] at h3
      have h4 : k2 + 1 - k1 + k1 = k2 + 1 := by omega
      rw [h4] at h3
      rw [← h3]
      have h5 : k2 + 1 - k1 = (k2 - k1) + 1 := by omega
      rw [h5, List.range'_concat]
      have h6 : k1 + 1 * (k2 - k1) = k2 := by omega
      rw [h6]
    rw [hsplit, List.foldl_append, List.foldl_append]
    rw [foldl_icStep_skip layers k1 k2 k1 0 _ rfl (by omega)]
    rw [foldl_icStep_chain layers k1 k2 (k2 - k1) k1 x Option.none [] (by omega) (by omega) h2]
    rw [List.foldl_cons, List.foldl_nil]
    have hidx : k1 + (k2 - k1) = k2 := by omega
    rw [icStep_break layers k1 k2 h1 h2 _ rfl]
    have hout : (layers.get ⟨k2, h2⟩).call (chainApply layers k1 (k2 - k1) x) =
        chainApply layers k1 (k2 - k1 + 1) x :=
      (chainApply_succ_right layers k1 (k2 - k1) k2 x (by omega) h2).symm
    have htr : (([] : List Nat) ++ List.range' k1 (k2 - k1)) ++ [k2] =
        List.range' k1 (k2 - k1 + 1) := by
      rw [List.nil_append, List.range'_concat]
      have : k1 + 1 * (k2 - k1) = k2 := by omega
      rw [this]
    simp only [hout, htr]
  simp [indexable_call, hr1, hr2, hrun, Bind.bind, Except.bind, Pure.pure, Except.pure]

/-- Special case: `start = last = k` invokes exactly the layer at `k`. -/
theorem indexable_call_single (layers : List (Layer α)) (x : α) (k : Nat)
    (h : k < layers.length) :
    indexable_call layers x (some (.int (k : Int))) (some (.int (k : Int))) =
      .ok (some ((layers.get ⟨k, h⟩).call x), [k]) := by
  have hmain := indexable_call_nat layers x k k (by omega) h
  have hk : k - k + 1 = 1 := by omega
  rw [hk] at hmain
  have hchain : chainApply layers k 1 x = (layers.get ⟨k, h⟩).call x := by
    rw [chainApply_succ_right layers k 0 k x (by omega) h, chainApply_zero]
  rw [hchain] at hmain
  simpa using hmain

/-! ### Helper lemmas about Python access, slicing and the detector loop -/

theorem pyGet_natCast (xs : List β) (i : Nat) (h : i < xs.length) :
    pyGet xs (i : Int) = .ok (xs.get ⟨i, h⟩) := by
  have h0 : ¬ ((i : Int) < 0) := by omega
  have hcond : (0 : Int) ≤ (i : Int) ∧ (i : Int) < (xs.length : Int) := by
    constructor
    · omega
    · exact_mod_cast h
  simp only [pyGet, if_neg h0, dif_pos hcond]
  congr 1

theorem pySlice_start_omitted (xs : List β) (b : Option Int) :
    pySlice xs Option.none b = pySlice xs (some 0) b := by
  have hmin : min (0 : Int) (xs.length : Int) = 0 := min_eq_left (by omega)
  simp [pySlice, sliceBound, hmin]

theorem pySlice_stop_omitted (xs : List β) (a : Option Int) :
    pySlice xs a Option.none = pySlice xs a (some (xs.length : Int)) := by
  have h1 : ¬ ((xs.length : Int) < 0) := by omega
  simp [pySlice, sliceBound, h1]

theorem indexable_call_none_eq (layers : List (Layer α)) (x : α) (h : 0 < layers.length) :
    indexable_call layers x Option.none Option.none =
      indexable_call layers x (some (.int 0)) (some (.int ((layers.length : Int) - 1))) := by
  have h0 : ¬ ((layers.length : Int) ≤ 0) := by omega
  have h1 : ¬ ((layers.length : Int) ≤ (layers.length : Int) - 1) := by omega
  simp [indexable_call, get_layer_index, h0, h1, Bind.bind, Except.bind, Pure.pure, Except.pure]

theorem detStep_ok (s p : List (Layer α)) (x : List α) (i : Nat)
    (hix : i < x.length) (his : i < s.length) (hip : i < p.length)
    (outs : List (Option α × List Nat)) :
    detStep ⟨s, p⟩ x (.ok outs) i = .ok (outs ++ [branchOut s p x i]) := by
  have hilay : i < (s ++ p).length := by
    simp [List.length_append]
    omega
  have hk : s.length + i < (s ++ p).length := by
    simp [List.length_append]
    omega
  have hcast : (i : Int) + (s.length : Int) = ((s.length + i : Nat) : Int) := by
    push_cast
    ring
  have hlay : DetectorNet.layers ⟨s, p⟩ = s ++ p := rfl
  have hsingle := indexable_call_single (s ++ p)
    (((s ++ p).get ⟨i, hilay⟩).call (x.get ⟨i, hix⟩)) (s.length + i) hk
  simp only [detStep, hlay, pyGet_natCast (s ++ p) i hilay, pyGet_natCast x i hix,
    Bind.bind, Except.bind, hcast, hsingle]
  have hgs : (s ++ p).get ⟨i, hilay⟩ = s.get ⟨i, his⟩ := by
    simp [List.get_eq_getElem, List.getElem_append_left his]
  have hgp : (s ++ p).get ⟨s.length + i, hk⟩ = p.get ⟨i, hip⟩ := by
    have := @List.getElem_append_right _ s p (s.length + i) (by omega) hk
    simp only [List.get_eq_getElem, this]
    congr 1
    omega
  have hbo : branchOut s p x i =
      (some ((p.get ⟨i, hip⟩).call ((s.get ⟨i, his⟩).call (x.get ⟨i, hix⟩))), [s.length + i]) := by
    simp [branchOut, List.get?_eq_getElem?, List.getElem?_eq_getElem hix,
      List.getElem?_eq_getElem his, List.getElem?_eq_getElem hip]
  rw [hgs, hgp, hbo]
  rfl

theorem detector_foldl (s p : List (Layer α)) (x : List α) :
    ∀ (m a : Nat), a + m ≤ x.length → x.length = s.length → s.length = p.length →
      ∀ (acc : List (Option α × List Nat)),
      (List.range' a m).foldl (detStep ⟨s, p⟩ x) (.ok acc) =
        .ok (acc ++ (List.range' a m).map (branchOut s p x)) := by
  intro m
  induction m with
  | zero => intro a _ _ _ acc; simp
  | succ m ih =>
    intro a hm hxs hsp acc
    rw [List.range'_succ, List.foldl_cons,
      detStep_ok s p x a (by omega) (by omega) (by omega) acc,
      ih (a + 1) (by omega) hxs hsp]
    simp [List.range'_succ]

/-! ### Claims -/

/-- Claim C1 (code evaluation at the failing input): with resolved
positions `start = 2 > last = 0` on a three-layer sequence, the partial
executor raises nothing — it silently returns the null output, invoking
no layer, both through `indexable_call` and through
`Powered_Sequential.call`. The claim (and spec section 7) requires an
explicit InvalidExecutionRange error here; no such raise exists in the
code. -/
theorem C1_code_eval :
    indexable_call demoLayers 7 (some (.int 2)) (some (.int 0)) = .ok (Option.none, []) ∧
    Powered_Sequential.call ⟨demoLayers⟩ 7 false (some (.int 2)) (some (.int 0)) =
      .ok (Option.none, []) := by
  exact ⟨rfl, rfl⟩

/-- Claim C2 (code evaluation at the failing input): on a three-layer
sequence, `get_layer_index` returns the raw key `-1` instead of the
normalised position `2`, and returns `-5` instead of failing with
IndexOutOfRange — the normalisation `index = len(layers) + key` on the
source's line 50 is dead, overwritten by `index = key` on line 51, and
there is no lower-bound check. -/
theorem C2_code_eval :
    get_layer_index demoLayers (.int (-1)) = .ok (-1) ∧
    get_layer_index demoLayers (.int (-5)) = .ok (-5) := by
  exact ⟨rfl, rfl⟩

/-- Claim C3 (counterexample): on a one-layer sequence, the full slice
resolves to a sub-sequence with exactly one element, and `get_item`
returns the one-element Python list, not the bare layer the claim
asserts. -/
theorem C3_counterexample :
    get_item [(⟨"a", fun v => v + 1⟩ : Layer Nat)] (.slice .omitted .omitted) =
      .ok (.layerList [⟨"a", fun v => v + 1⟩]) ∧
    (Except.ok (Item.layerList [(⟨"a", fun v => v + 1⟩ : Layer Nat)]) : Except Err (Item Nat)) ≠
      .ok (.layer ⟨"a", fun v => v + 1⟩) := by
  refine ⟨rfl, ?_⟩
  intro hc
  injection hc with hc2
  exact Item.noConfusion hc2

/-- Claim C3 (amended): a slice key whose resolved sub-sequence has at
most one element returns that raw sub-list itself (not the bare layer,
not a Sequential); only a sub-sequence with more than one element is
wrapped into a new Sequential composite. -/
theorem C3_slice_result_shape (layers : List (Layer α)) (st sp : SKey)
    (ls : List (Layer α)) (h : resolveSlice layers st sp = .ok ls) :
    (ls.length ≤ 1 → get_item layers (.slice st sp) = .ok (.layerList ls)) ∧
    (1 < ls.length → get_item layers (.slice st sp) = .ok (.seq ls)) := by
  constructor
  · intro hl
    have hn : ¬ (1 < ls.length) := by omega
    simp [get_item, h, hn, Bind.bind, Except.bind, Pure.pure, Except.pure]
  · intro hl
    simp [get_item, h, hl, Bind.bind, Except.bind, Pure.pure, Except.pure]

/-- Witness for C3 (amended) at a concrete input: the full slice of the
three-layer demo sequence has three elements and is wrapped into a
Sequential. -/
theorem C3_witness :
    resolveSlice demoLayers .omitted .omitted = .ok demoLayers ∧
    get_item demoLayers (.slice .omitted .omitted) = .ok (.seq demoLayers) :=
  ⟨rfl, (C3_slice_result_shape demoLayers .omitted .omitted demoLayers rfl).2 (by decide)⟩

/-- Claim C4: for valid resolved positions `k1 ≤ k2 < length`,
`indexable_call` chains the running value through the layers `k1 .. k2`
in ascending index order (output of layer `k2`), and the invoked indices
are exactly `k1, k1+1, ..., k2` — no layer below `k1` or above `k2` is
invoked and the loop stops right after `k2`. -/
theorem C4_ascending_restricted_execution (layers : List (Layer α)) (x : α) (k1 k2 : Nat)
    (h1 : k1 ≤ k2) (h2 : k2 < layers.length) :
    indexable_call layers x (some (.int (k1 : Int))) (some (.int (k2 : Int))) =
      .ok (some (chainApply layers k1 (k2 - k1 + 1) x), List.range' k1 (k2 - k1 + 1)) :=
  indexable_call_nat layers x k1 k2 h1 h2

/-- Witness for C4 at a concrete input: executing positions 1 and 2 of
the demo sequence on input 5 gives ((5 * 2) + 3) = 13 with trace [1, 2]. -/
theorem C4_witness :
    (1 ≤ 2 ∧ 2 < demoLayers.length) ∧
    indexable_call demoLayers 5 (some (.int ((1 : Nat) : Int))) (some (.int ((2 : Nat) : Int))) =
      .ok (some 13, [1, 2]) :=
  ⟨⟨by decide, by decide⟩,
    (C4_ascending_restricted_execution demoLayers 5 1 2 (by decide) (by decide)).trans rfl⟩

/-- Claim C5: string-key resolution fails with UnknownLayerName
(`ValueError`) exactly when no layer of the sequence is named `s`, and
returns position `j` exactly when `j` holds a layer named `s` and no
later position does — the exhaustive scan makes the last matching
position win. -/
theorem C5_last_match_wins (layers : List (Layer α)) (s : String) :
    (get_layer_index layers (.str s) = .error .valueError ↔ ∀ L ∈ layers, L.name ≠ s) ∧
    (∀ j : Nat, get_layer_index layers (.str s) = .ok (j : Int) ↔ isLastMatch layers s j) := by
  exact ⟨get_layer_index_str_error layers s,
    fun j => get_layer_index_str_ok layers s j⟩

/-- Witness for C5 at a concrete input: with duplicate name "a" at
positions 0 and 2, resolution returns 2 (the last match). -/
theorem C5_witness :
    get_layer_index
      [(⟨"a", fun v => v + 1⟩ : Layer Nat), ⟨"b", fun v => v⟩, ⟨"a", fun v => v⟩]
      (.str "a") = .ok ((2 : Nat) : Int) := by
  refine ((C5_last_match_wins
    [(⟨"a", fun v => v + 1⟩ : Layer Nat), ⟨"b", fun v => v⟩, ⟨"a", fun v => v⟩] "a").2 2).mpr ?_
  refine ⟨⟨by decide, rfl⟩, ?_⟩
  intro i hi h2i
  simp [List.length_cons] at hi
  omega

/-- Claim C6: a detector built from equal-length stage and predictor
lists, called on a matching list of inputs, returns one output per branch
in branch order, where branch `i` is `predictors[i](input_layers[i](x[i]))`
computed by invoking exactly the single flattened-sequence layer at
position `len(input_layers) + i` (see `branchOut`). -/
theorem C6_branch_outputs (s p : List (Layer α)) (x : List α)
    (hsp : s.length = p.length) (hxs : x.length = s.length) :
    DetectorNet.call ⟨s, p⟩ x false = .ok ((List.range x.length).map (branchOut s p x)) := by
  show (List.range x.length).foldl (detStep ⟨s, p⟩ x) (.ok []) =
    .ok ((List.range x.length).map (branchOut s p x))
  rw [List.range_eq_range',
    detector_foldl s p x x.length 0 (by omega) hxs hsp []]
  simp

/-- Witness for C6 at a concrete input: two branches,
`p0(s0(10)) = (10+1)*10 = 110` at flattened position 2 and
`p1(s1(20)) = (20+2)*100 = 2200` at flattened position 3. -/
theorem C6_witness :
    DetectorNet.call
      (⟨[⟨"s0", fun v => v + 1⟩, ⟨"s1", fun v => v + 2⟩],
        [⟨"p0", fun v => v * 10⟩, ⟨"p1", fun v => v * 100⟩]⟩ : DetectorNet Nat)
      [10, 20] false =
      .ok [(some 110, [2]), (some 2200, [3])] :=
  (C6_branch_outputs
    [⟨"s0", fun v => v + 1⟩, ⟨"s1", fun v => v + 2⟩]
    [⟨"p0", fun v => v * 10⟩, ⟨"p1", fun v => v * 100⟩]
    [10, 20] rfl rfl).trans rfl

/-- Claim C7: in a slice key, a string-resolved stop bound behaves as the
integer bound one past the resolved position (making name-based ranges
inclusive of the named stop layer while integer stops stay exclusive);
a missing start bound behaves as position 0 and a missing stop bound as
the sequence length. -/
theorem C7_slice_bounds (layers : List (Layer α)) :
    (∀ (st : SKey) (B : String) (j : Int), get_layer_index layers (.str B) = .ok j →
      get_item layers (.slice st (.str B)) = get_item layers (.slice st (.int (j + 1)))) ∧
    (∀ sp : SKey, get_item layers (.slice .omitted sp) = get_item layers (.slice (.int 0) sp)) ∧
    (∀ st : SKey, get_item layers (.slice st .omitted) =
      get_item layers (.slice st (.int (layers.length : Int)))) := by
  refine ⟨?_, ?_, ?_⟩
  · intro st B j h
    cases hst : resolveStart layers st with
    | error e =>
      simp [get_item, resolveSlice, hst, Bind.bind, Except.bind]
    | ok a =>
      simp [get_item, resolveSlice, hst, resolveStop, h, Bind.bind, Except.bind, Except.map]
  · intro sp
    cases hsp : resolveStop layers sp with
    | error e =>
      simp [get_item, resolveSlice, resolveStart, hsp, Bind.bind, Except.bind]
    | ok b =>
      simp [get_item, resolveSlice, resolveStart, hsp, Bind.bind, Except.bind,
        pySlice_start_omitted]
  · intro st
    cases hst : resolveStart layers st with
    | error e =>
      simp [get_item, resolveSlice, hst, Bind.bind, Except.bind]
    | ok a =>
      simp [get_item, resolveSlice, hst, resolveStop, Bind.bind, Except.bind,
        pySlice_stop_omitted]

/-- Witness for C7 at a concrete input: the name "b" resolves to position
1 in the demo sequence, and slicing up to "b" equals slicing up to the
integer bound 2 = 1 + 1. -/
theorem C7_witness :
    get_layer_index demoLayers (.str "b") = .ok 1 ∧
    get_item demoLayers (.slice .omitted (.str "b")) =
      get_item demoLayers (.slice .omitted (.int (1 + 1))) :=
  ⟨rfl, (C7_slice_bounds demoLayers).1 .omitted "b" 1 rfl⟩

/-- Claim C8 (counterexample): on the empty sequence, `call(x)` with no
keys returns the null output, while `call(x, startKey=0,
lastKey=len(S)-1)` raises `IndexError` (resolving key 0 against an empty
sequence fails), so the two are not equal for every sequence. -/
theorem C8_counterexample :
    indexable_call ([] : List (Layer Nat)) 0 Option.none Option.none = .ok (Option.none, []) ∧
    indexable_call ([] : List (Layer Nat)) 0 (some (.int 0))
        (some (.int ((List.length ([] : List (Layer Nat)) : Int) - 1))) =
      .error .indexError := by
  exact ⟨rfl, rfl⟩

/-- Claim C8 (amended): for every nonempty sequence and every input,
`call(x)` with no keys equals `call(x, startKey=0, lastKey=len(S)-1)` —
the defaulted boundaries are position 0 and position length - 1. -/
theorem C8_default_boundaries (layers : List (Layer α)) (x : α) (h : 0 < layers.length) :
    indexable_call layers x Option.none Option.none =
      indexable_call layers x (some (.int 0)) (some (.int ((layers.length : Int) - 1))) :=
  indexable_call_none_eq layers x h

/-- Witness for C8 (amended) at a concrete input. -/
theorem C8_witness :
    0 < demoLayers.length ∧
    indexable_call demoLayers 5 Option.none Option.none =
      indexable_call demoLayers 5 (some (.int 0))
        (some (.int ((demoLayers.length : Int) - 1))) :=
  ⟨by decide, C8_default_boundaries demoLayers 5 (by decide)⟩

/-- Claim C9: construction of the base network with an architecture
identifier outside the recognised aliases fails with
UnsupportedArchitecture (`TypeError`) for every possible assembly
function — the assembly is never consulted, so nothing is constructed
before the error. -/
theorem C9_unsupported_architecture (architecture : String)
    (h : architecture ∉ BaseNet_recognized) (assemble : Unit → List (Layer α)) :
    BaseNet_init architecture assemble = .error .typeError := by
  simp [BaseNet_init, h]

/-- Witness for C9 at a concrete input. -/
theorem C9_witness :
    "ResNet" ∉ BaseNet_recognized ∧
    BaseNet_init "ResNet" (fun _ => ([] : List (Layer Nat))) = .error .typeError :=
  ⟨by decide, C9_unsupported_architecture "ResNet" (by decide) _⟩

/-- Claim C10: both composite call operations ignore the training flag —
for every model, input and key pair, calling with `training = true` and
with `training = false` yields identical results. -/
theorem C10_training_independent (ms : Powered_Sequential α) (mm : Powered_Model α)
    (x : α) (sl ll : Option LKey) :
    Powered_Sequential.call ms x true sl ll = Powered_Sequential.call ms x false sl ll ∧
    Powered_Model.call mm x true sl ll = Powered_Model.call mm x false sl ll := by
  exact ⟨rfl, rfl⟩

end SSD
